import Mathlib

/-!
# Verification of the job-orchestration core of `natural-audio-video-slowdown`

This file is a shallow embedding, in Lean 4, of the orchestration engine of
the repository: the per-line progress extraction and finish classification of
`ProcessorWorker` (src/app/core/workers.py), the timestamp parser
`parse_ffmpeg_time_to_seconds` (src/app/core/ffmpeg.py), the `Job` entity and
its `mark_*` transitions (src/app/core/models.py), and the queue/dispatch
state machine of `JobManager` (src/app/core/workers.py).

Modelling conventions:

* Python `str` is modelled as `List Char` (`PyStr`): the string functions the
  code relies on (`split`, `strip`, `in`) are re-implemented structurally so
  that concrete runs reduce inside the kernel.
* Python `float` arithmetic is modelled over `ℚ`; the constants `0.01` and
  `0.001` of the source become `1/100` and `1/1000`.
* Fallible Python code (functions that may raise, with the caller catching
  every exception) is modelled with `Option`: `none` is "an exception was
  raised and swallowed".
* The thread-pool concurrency of `JobManager` is modelled as a sequential
  event-step machine: each externally observable event (`add_job`, a worker's
  `finished` signal, `set_concurrency`, queue pause/resume) is one atomic
  step, matching the fact that all the Python handlers run on the Qt event
  loop thread.
-/

namespace AVS

/-- Python `str`, modelled as its list of characters. -/
abbrev PyStr := List Char

/-! ## Python string primitives used by the source -/

/-- Accumulator loop for `splitChar`.  `acc` holds the characters of the
current field in reverse order. -/
def splitCharAux (sep : Char) : PyStr → PyStr → List PyStr
  | acc, [] => [acc.reverse]
  | acc, c :: cs =>
      if c = sep then acc.reverse :: splitCharAux sep [] cs
      else splitCharAux sep (c :: acc) cs

/-- Python `s.split(sep)` for a one-character separator: fields between
occurrences of `sep`, empty fields kept, always at least one field. -/
def splitChar (sep : Char) (s : PyStr) : List PyStr :=
  splitCharAux sep [] s

/-- Boolean "`sep` is a prefix of `l`". -/
def startsWithSeq : PyStr → PyStr → Bool
  | [], _ => true
  | _ :: _, [] => false
  | a :: as, b :: bs => a == b && startsWithSeq as bs

/-- The suffix of `l` after the last occurrence of `sep`, or `none` when
`sep` does not occur in `l`.  This is Python's `l.split(sep)[-1]` fused with
the `sep in l` membership test (for a non-empty `sep`). -/
def afterLast (sep : PyStr) : PyStr → Option PyStr
  | [] => none
  | c :: cs =>
      match afterLast sep cs with
      | some r => some r
      | none =>
          if startsWithSeq sep (c :: cs) then some ((c :: cs).drop sep.length)
          else none

/-- Boolean "`sep` occurs somewhere in `l`" (Python `sep in l`, non-empty
`sep`). -/
def hasOcc (sep : PyStr) : PyStr → Bool
  | [] => false
  | c :: cs => startsWithSeq sep (c :: cs) || hasOcc sep cs

/-- The maximal run of non-whitespace characters at the head of `l`. -/
def takeUntilWs : PyStr → PyStr
  | [] => []
  | c :: cs => if c.isWhitespace then [] else c :: takeUntilWs cs

/-- Python `s.split()[0]`: the first whitespace-delimited token of `s`, or
`none` when `s` is empty or all whitespace (where Python raises `IndexError`,
which the worker's `except` swallows). -/
def firstToken : PyStr → Option PyStr
  | [] => none
  | c :: cs => if c.isWhitespace then firstToken cs else some (c :: takeUntilWs cs)

/-- Drop trailing whitespace (Python `s.rstrip()`). -/
def rstripWs : PyStr → PyStr
  | [] => []
  | c :: cs =>
      match rstripWs cs with
      | [] => if c.isWhitespace then [] else [c]
      | r => c :: r

/-- Python `s.strip()`: drop leading and trailing whitespace. -/
def pyStrip (s : PyStr) : PyStr :=
  rstripWs (s.dropWhile Char.isWhitespace)

/-! ## Python numeric literal parsing -/

/-- Numeric value of a digit string. -/
def digitsToNat (s : PyStr) : ℕ :=
  s.foldl (fun acc c => 10 * acc + (c.toNat - 48)) 0

/-- `s` is one or more decimal digits. -/
def isDigits (s : PyStr) : Bool :=
  !s.isEmpty && s.all Char.isDigit

/-- Python `int(s)`, modelled for the grammar the timestamps use: optional
surrounding whitespace, optional sign, one or more decimal digits.  `none`
models a raised `ValueError`.  (Python also accepts underscore separators and
non-ASCII digits; `ffmpeg` timestamps never contain those, so they are left
out of the model.) -/
def pyInt (s : PyStr) : Option ℤ :=
  match pyStrip s with
  | '-' :: ds => if isDigits ds then some (-(digitsToNat ds : ℤ)) else none
  | '+' :: ds => if isDigits ds then some (digitsToNat ds : ℤ) else none
  | ds => if isDigits ds then some (digitsToNat ds : ℤ) else none

/-- Shared body of `pyFloat`: an unsigned decimal literal, either plain
digits or `digits.digits` with at least one digit overall. -/
def pyFloatCore (b : PyStr) : Option ℚ :=
  match splitChar '.' b with
  | [ip] => if isDigits ip then some (digitsToNat ip : ℚ) else none
  | [ip, fp] =>
      if (!ip.isEmpty || !fp.isEmpty) && ip.all Char.isDigit && fp.all Char.isDigit then
        some ((digitsToNat ip : ℚ) + (digitsToNat fp : ℚ) / 10 ^ fp.length)
      else none
  | _ => none

/-- Python `float(s)`, modelled for decimal literals `[sign] digits [. digits]`
(the form `ffmpeg` timestamps use); `none` models a raised `ValueError`.
Exponent, `inf` and `nan` forms never occur in a timestamp and are left out. -/
def pyFloat (s : PyStr) : Option ℚ :=
  match pyStrip s with
  | '-' :: b => (pyFloatCore b).map (fun q => -q)
  | '+' :: b => pyFloatCore b
  | b => pyFloatCore b

/-! ## `parse_ffmpeg_time_to_seconds`  (src/app/core/ffmpeg.py, lines 206-212)

```python
def parse_ffmpeg_time_to_seconds(value):
    try:
        hh, mm, ss = value.split(":")
        return int(hh) * 3600 + int(mm) * 60 + float(ss)
    except Exception:
        return None
```
-/

/-- `parse_ffmpeg_time_to_seconds` from src/app/core/ffmpeg.py: splits on
`:`, requires exactly three fields, and converts `HH:MM:SS.ms` to seconds;
any failure (wrong arity, unparsable field) returns `none`. -/
def parse_ffmpeg_time_to_seconds (value : PyStr) : Option ℚ :=
  match splitChar ':' value with
  | [hh, mm, ss] =>
      match pyInt hh, pyInt mm, pyFloat ss with
      | some h, some m, some s => some ((h : ℚ) * 3600 + (m : ℚ) * 60 + s)
      | _, _, _ => none
  | _ => none

/-! ## Per-line progress extraction  (src/app/core/workers.py, lines 52-120) -/

/-- The literal `"time="` the worker searches each stderr line for. -/
def timeSep : PyStr := "time=".data

/-- `line.split("time=")[-1].split()[0]` guarded by `"time=" in line`;
`none` when the separator does not occur or the slot after it is empty
(where Python raises `IndexError`, swallowed by the worker's `except`). -/
def timeToken (line : PyStr) : Option PyStr :=
  match afterLast timeSep line with
  | none => none
  | some rest => firstToken rest

/-- `duration = max(job.duration * 2.0, 0.01)` (workers.py line 55): the
expected output duration is twice the probed input duration, floored at
`0.01` seconds. -/
def workerDuration (jobDuration : ℚ) : ℚ :=
  max (jobDuration * 2) (1 / 100)

/-- One progress sample as emitted by the worker's `progress` signal:
the parsed output timestamp, the clamped progress fraction and the
remaining-time estimate. -/
structure Sample where
  t : ℚ
  prog : ℚ
  rem : ℚ
deriving DecidableEq, Repr

/-- One iteration of the worker's stderr loop (workers.py lines 100-120)
restricted to its progress output: the line is stripped, skipped when empty,
skipped when it holds no parseable `time=` token, and otherwise yields the
sample

* `prog = min(max(t / duration, 0.0), 1.0)`
* `elapsed = max(wallElapsed, 0.001)`
* `speed = t / elapsed if elapsed > 0 else 0.0`
* `rem = (duration - t) / max(speed, 0.01)`

`duration` is the precomputed `workerDuration` value and `wallElapsed` is
`time.time() - start_time` at this line. -/
def processLine (duration wallElapsed : ℚ) (line : PyStr) : Option Sample :=
  let stripped := pyStrip line
  if stripped.isEmpty then none
  else
    match timeToken stripped with
    | none => none
    | some tok =>
        match parse_ffmpeg_time_to_seconds tok with
        | none => none
        | some t =>
            let prog := min (max (t / duration) 0) 1
            let elapsed := max wallElapsed (1 / 1000)
            let speed := if 0 < elapsed then t / elapsed else 0
            let rem := (duration - t) / max speed (1 / 100)
            some ⟨t, prog, rem⟩

/-- The progress fractions emitted over a whole stderr stream, each line
paired with the wall-clock elapsed time at which it was read. -/
def progressEmissions (duration : ℚ) : List (ℚ × PyStr) → List ℚ
  | [] => []
  | (wall, line) :: rest =>
      match processLine duration wall line with
      | none => progressEmissions duration rest
      | some s => s.prog :: progressEmissions duration rest

/-! ## Finish classification  (src/app/core/workers.py, lines 122-135)

```python
ret = None
if self._process:
    try:
        ret = self._process.wait(timeout=1)
    except Exception:
        ret = -1

stopped = self._stop_event.is_set()
if stopped:
    self.signals.finished.emit(job.id, False, "Canceled")
else:
    ok = ret == 0
    self.signals.finished.emit(job.id, ok, "OK" if ok else f"ffmpeg exited with code {ret}")
```
-/

/-- The `ret` value after the bounded wait: the process exit code when
`wait(timeout=1)` returned it, and `-1` when `wait` raised (in particular on
the 1-second `TimeoutExpired`).  `none` models the raised exception. -/
def finishRet (waitOutcome : Option ℤ) : ℤ :=
  match waitOutcome with
  | some code => code
  | none => -1

/-- The `(success, message)` payload of the worker's single `finished`
signal, as a function of the cancellation flag (`stopped`, the state of
`_stop_event` when the stderr stream has closed) and the outcome of the
bounded wait. -/
def finishReport (stopped : Bool) (waitOutcome : Option ℤ) : Bool × String :=
  if stopped then (false, "Canceled")
  else
    let ret := finishRet waitOutcome
    if ret = 0 then (true, "OK") else (false, "ffmpeg exited with code " ++ toString ret)

/-- The status text `JobManager._on_finished` republishes to its observers
(workers.py line 243): `"Completed" if ok else f"Failed: {message}"`. -/
def managerTerminalStatus (ok : Bool) (message : String) : String :=
  if ok then "Completed" else "Failed: " ++ message

/-! ## The `Job` entity  (src/app/core/models.py) -/

/-- `JobStatus` from src/app/core/models.py. -/
inductive JobStatus where
  | PENDING
  | QUEUED
  | RUNNING
  | PAUSED
  | COMPLETED
  | FAILED
  | CANCELED
  | SKIPPED
deriving DecidableEq, Repr

/-- `Job` from src/app/core/models.py.  Paths and the command are opaque
strings here; timestamps are rational wall-clock values.  The `extra` dict is
omitted (never read by the orchestration core). -/
structure Job where
  id : ℤ
  input_path : String
  output_path : String
  status : JobStatus := .PENDING
  duration : ℚ := 0
  has_video : Bool := false
  has_audio : Bool := false
  progress : ℚ := 0
  eta_seconds : Option ℚ := none
  message : String := ""
  start_time : Option ℚ := none
  end_time : Option ℚ := none
  ffmpeg_pid : Option ℤ := none
  preview_mode : Bool := false
  command : List String := []
deriving DecidableEq, Repr

/-- `Job.mark_running` (models.py lines 43-47); `now` is `time.time()`. -/
def Job.mark_running (now : ℚ) (j : Job) : Job :=
  { j with status := .RUNNING, start_time := some now, progress := 0, eta_seconds := none }

/-- `Job.mark_completed` (models.py lines 49-52). -/
def Job.mark_completed (now : ℚ) (j : Job) : Job :=
  { j with status := .COMPLETED, progress := 1, end_time := some now }

/-- `Job.mark_failed` (models.py lines 54-57). -/
def Job.mark_failed (msg : String) (now : ℚ) (j : Job) : Job :=
  { j with status := .FAILED, message := msg, end_time := some now }

/-- `Job.mark_canceled` (models.py lines 59-61). -/
def Job.mark_canceled (now : ℚ) (j : Job) : Job :=
  { j with status := .CANCELED, end_time := some now }

/-- The writes `ProcessorWorker.run` performs on its `Job` before entering
the stderr loop (workers.py lines 48-71, successful launch): it calls
`job.mark_running()` and then stores the process id in `job.ffmpeg_pid`.
During the loop and afterwards the worker mutates no further `Job` field
(progress, eta and messages are delivered as signals only). -/
def workerStart (now : ℚ) (pid : ℤ) (j : Job) : Job :=
  { j.mark_running now with ffmpeg_pid := some pid }

/-! ## The `JobManager` queue scheduler  (src/app/core/workers.py, lines 158-246)

The manager's mutable state is the FIFO `pending` queue, the `active`
mapping (represented by its key list in insertion order), `max_workers` and
the `_paused` flag.  `started` logs the job ids handed to `pool.start`, in
order, and `queueFinishedCount` counts emissions of the `queue_finished`
signal; both are observation logs, not part of the Python state. -/
structure ManagerState where
  pending : List ℕ
  active : List ℕ
  maxWorkers : ℤ
  paused : Bool
  started : List ℕ
  queueFinishedCount : ℕ
deriving DecidableEq, Repr

/-- `JobManager.__init__` (workers.py lines 167-173):
`max_workers = max(1, int(max_workers))`, empty queue, empty active map. -/
def initManager (maxWorkers : ℤ) : ManagerState :=
  { pending := [], active := [], maxWorkers := max 1 maxWorkers,
    paused := false, started := [], queueFinishedCount := 0 }

/-- The `while` loop of `_maybe_dispatch` (workers.py lines 211-221): while
`len(active) < max_workers` and the pending queue is non-empty, pop the head
of `pending`, register it in `active` and start a worker for it.  Returns
the new active list, the remaining pending queue and the ids started, in
order. -/
def dispatchLoop (maxW : ℤ) : List ℕ → List ℕ → List ℕ × List ℕ × List ℕ
  | active, [] => (active, [], [])
  | active, j :: rest =>
      if (active.length : ℤ) < maxW then
        match dispatchLoop maxW (active ++ [j]) rest with
        | (a, p, st) => (a, p, j :: st)
      else (active, j :: rest, [])

/-- `JobManager._maybe_dispatch` (workers.py lines 208-221): a no-op while
the queue is paused, otherwise the dispatch loop. -/
def maybeDispatch (s : ManagerState) : ManagerState :=
  if s.paused then s
  else
    match dispatchLoop s.maxWorkers s.active s.pending with
    | (a, p, st) => { s with active := a, pending := p, started := s.started ++ st }

/-- `JobManager.set_concurrency` (workers.py lines 175-177):
`max_workers = max(1, n)`, then a dispatch attempt. -/
def set_concurrency (n : ℤ) (s : ManagerState) : ManagerState :=
  maybeDispatch { s with maxWorkers := max 1 n }

/-- `JobManager.add_job` (workers.py lines 179-181): append to the FIFO
queue, then a dispatch attempt. -/
def add_job (j : ℕ) (s : ManagerState) : ManagerState :=
  maybeDispatch { s with pending := s.pending ++ [j] }

/-- `JobManager.pause_queue` (workers.py lines 183-184). -/
def pause_queue (s : ManagerState) : ManagerState :=
  { s with paused := true }

/-- `JobManager.resume_queue` (workers.py lines 186-191).  The per-worker
`resume()` calls touch only worker-internal pause flags, not this state. -/
def resume_queue (s : ManagerState) : ManagerState :=
  maybeDispatch { s with paused := false }

/-- `JobManager._on_finished` (workers.py lines 239-246): drop the job from
the active mapping, re-attempt dispatch, and emit `queue_finished` exactly
when both the active mapping and the pending queue are then empty.  (The
republished status text is `managerTerminalStatus`, modelled separately.) -/
def onFinished (j : ℕ) (s : ManagerState) : ManagerState :=
  let s2 := maybeDispatch { s with active := s.active.erase j }
  if s2.active.isEmpty && s2.pending.isEmpty then
    { s2 with queueFinishedCount := s2.queueFinishedCount + 1 }
  else s2

/-- The externally driven events of the manager. -/
inductive MEvent where
  | submit (j : ℕ)
  | finished (j : ℕ)
  | setConc (n : ℤ)
  | pauseQ
  | resumeQ
deriving DecidableEq, Repr

/-- One manager step per event. -/
def step (s : ManagerState) : MEvent → ManagerState
  | .submit j => add_job j s
  | .finished j => onFinished j s
  | .setConc n => set_concurrency n s
  | .pauseQ => pause_queue s
  | .resumeQ => resume_queue s

/-- Run a sequence of events. -/
def runEvents (s : ManagerState) (evs : List MEvent) : ManagerState :=
  evs.foldl step s

/-- `e` is a `submit` or a `finished` event. -/
def MEvent.isQueueFlow : MEvent → Prop
  | .submit _ => True
  | .finished _ => True
  | _ => False

/-- A `finished j` event can only come from a worker currently registered
under `j` in the active mapping (each worker emits `finished` exactly once,
and it is registered when started and popped in the handler); the other
events are always available. -/
def validEvent (s : ManagerState) : MEvent → Prop
  | .finished j => j ∈ s.active
  | _ => True

/-- Every event of the trace is valid in the state it is applied to. -/
def validTrace : ManagerState → List MEvent → Prop
  | _, [] => True
  | s, e :: evs => validEvent s e ∧ validTrace (step s e) evs

/-! ## Concrete inputs used by witnesses and counterexamples -/

/-- A queued job, as it reaches a worker via dispatch. -/
def sampleJob : Job :=
  { id := 1, input_path := "in.mp4", output_path := "out.mp4", status := .QUEUED }

/-- The diagnostic line of spec §8's scenario. -/
def specLine : PyStr := "frame=120 fps=30 time=00:00:05.00 bitrate=x".data

/-- A stderr line reporting output timestamp 5 seconds. -/
def lineT5 : PyStr := "x time=00:00:05.00 y".data

/-- A stderr line reporting output timestamp 3 seconds. -/
def lineT3 : PyStr := "x time=00:00:03.00 y".data

/-- A stderr stream whose reported timestamps go backwards: 5 s, then 3 s. -/
def decreasingLines : List (ℚ × PyStr) := [(1, lineT5), (2, lineT3)]

/-- A manager state with two pending jobs, capacity free and the queue not
paused. -/
def dfState : ManagerState :=
  { pending := [7, 8], active := [], maxWorkers := 2, paused := false,
    started := [], queueFinishedCount := 0 }

/-! ## Dispatch-loop lemmas -/

/-- The dispatch loop never grows `active` past `maxW`. -/
theorem dispatchLoop_le (maxW : ℤ) :
    ∀ pending active : List ℕ, (active.length : ℤ) ≤ maxW →
      (((dispatchLoop maxW active pending).1).length : ℤ) ≤ maxW := by
  intro pending
  induction pending with
  | nil => intro active h; simpa [dispatchLoop] using h
  | cons j rest ih =>
      intro active h
      by_cases hlt : (active.length : ℤ) < maxW
      · have h2 : (((active ++ [j]).length : ℤ)) ≤ maxW := by
          simp only [List.length_append, List.length_singleton]
          push_cast
          omega
        have h3 := ih (active ++ [j]) h2
        rcases hd : dispatchLoop maxW (active ++ [j]) rest with ⟨a, p, st⟩
        rw [hd] at h3
        simpa [dispatchLoop, hlt, hd] using h3
      · simpa [dispatchLoop, hlt] using h

/-- The dispatch loop pops exactly a front segment of the pending queue, in
order, and starts exactly those jobs; when there is capacity and pending work
it pops at least one. -/
theorem dispatchLoop_take (maxW : ℤ) :
    ∀ pending active : List ℕ, ∃ k,
      dispatchLoop maxW active pending =
        (active ++ pending.take k, pending.drop k, pending.take k) ∧
      (pending ≠ [] → (active.length : ℤ) < maxW → 1 ≤ k) := by
  intro pending
  induction pending with
  | nil => intro active; exact ⟨0, by simp [dispatchLoop], by simp⟩
  | cons j rest ih =>
      intro active
      by_cases hlt : (active.length : ℤ) < maxW
      · obtain ⟨k, hk, -⟩ := ih (active ++ [j])
        refine ⟨k + 1, ?_, fun _ _ => by omega⟩
        simp [dispatchLoop, hlt, hk, List.append_assoc]
      · exact ⟨0, by simp [dispatchLoop, hlt], fun _ h => absurd h hlt⟩

/-- `_maybe_dispatch` does not change `max_workers`. -/
theorem maybeDispatch_maxWorkers (s : ManagerState) :
    (maybeDispatch s).maxWorkers = s.maxWorkers := by
  rcases hd : dispatchLoop s.maxWorkers s.active s.pending with ⟨a, p, st⟩
  by_cases hp : s.paused <;> simp [maybeDispatch, hp, hd]

/-- `_maybe_dispatch` does not change `_paused`. -/
theorem maybeDispatch_paused (s : ManagerState) :
    (maybeDispatch s).paused = s.paused := by
  rcases hd : dispatchLoop s.maxWorkers s.active s.pending with ⟨a, p, st⟩
  by_cases hp : s.paused <;> simp [maybeDispatch, hp, hd]

/-- `_maybe_dispatch` emits no `queue_finished`. -/
theorem maybeDispatch_count (s : ManagerState) :
    (maybeDispatch s).queueFinishedCount = s.queueFinishedCount := by
  rcases hd : dispatchLoop s.maxWorkers s.active s.pending with ⟨a, p, st⟩
  by_cases hp : s.paused <;> simp [maybeDispatch, hp, hd]

/-- `_maybe_dispatch` keeps `len(active) <= max_workers` whenever it held
before. -/
theorem maybeDispatch_active_le (s : ManagerState)
    (h : (s.active.length : ℤ) ≤ s.maxWorkers) :
    (((maybeDispatch s).active).length : ℤ) ≤ s.maxWorkers := by
  by_cases hp : s.paused
  · simpa [maybeDispatch, hp] using h
  · have h3 := dispatchLoop_le s.maxWorkers s.pending s.active h
    rcases hd : dispatchLoop s.maxWorkers s.active s.pending with ⟨a, p, st⟩
    rw [hd] at h3
    simpa [maybeDispatch, hp, hd] using h3

/-- With nothing pending, `_maybe_dispatch` is the identity. -/
theorem maybeDispatch_pending_nil (s : ManagerState) (h : s.pending = []) :
    maybeDispatch s = s := by
  rcases s with ⟨p, a, m, pa, st, c⟩
  simp only at h
  subst h
  cases pa <;> simp [maybeDispatch, dispatchLoop]

/-! ## Invariant preservation for the concurrency bound (C1) -/

/-- One `submit` or `finished` step preserves the fixed limit and the bound
`len(active) <= N`. -/
theorem step_conc_inv (N : ℤ) (s : ManagerState) (e : MEvent)
    (he : e.isQueueFlow) (h1 : s.maxWorkers = N) (h2 : (s.active.length : ℤ) ≤ N) :
    (step s e).maxWorkers = N ∧ (((step s e).active).length : ℤ) ≤ N := by
  cases e with
  | submit j =>
      refine ⟨by simpa [step, add_job, maybeDispatch_maxWorkers] using h1, ?_⟩
      have h3 := maybeDispatch_active_le { s with pending := s.pending ++ [j] }
        (by simpa [h1] using h2)
      simpa [step, add_job, h1] using h3
  | finished j =>
      have hact : (step s (.finished j)).active =
          (maybeDispatch { s with active := s.active.erase j }).active := by
        simp only [step, onFinished]
        split <;> rfl
      have hmw : (step s (.finished j)).maxWorkers =
          (maybeDispatch { s with active := s.active.erase j }).maxWorkers := by
        simp only [step, onFinished]
        split <;> rfl
      have hlen : ((s.active.erase j).length : ℤ) ≤ N := by
        have := List.length_erase_le j s.active
        omega
      have h3 := maybeDispatch_active_le { s with active := s.active.erase j }
        (by simpa [h1] using hlen)
      constructor
      · rw [hmw, maybeDispatch_maxWorkers]; exact h1
      · rw [hact]; simpa [h1] using h3
  | setConc n => exact absurd he (by simp [MEvent.isQueueFlow])
  | pauseQ => exact absurd he (by simp [MEvent.isQueueFlow])
  | resumeQ => exact absurd he (by simp [MEvent.isQueueFlow])

/-- The bound of `step_conc_inv`, folded over a whole event sequence. -/
theorem runEvents_conc_inv (N : ℤ) :
    ∀ (evs : List MEvent) (s : ManagerState), (∀ e ∈ evs, e.isQueueFlow) →
      s.maxWorkers = N → (s.active.length : ℤ) ≤ N →
      (runEvents s evs).maxWorkers = N ∧ (((runEvents s evs).active).length : ℤ) ≤ N := by
  intro evs
  induction evs with
  | nil => intro s _ h1 h2; exact ⟨h1, h2⟩
  | cons e evs ih =>
      intro s hall h1 h2
      have hstep := step_conc_inv N s e (hall e (List.mem_cons_self e evs)) h1 h2
      have := ih (step s e) (fun e' he' => hall e' (List.mem_cons_of_mem e he'))
        hstep.1 hstep.2
      simpa [runEvents, List.foldl_cons] using this

/-- C1: for every fixed concurrency limit `N ≥ 1` and every sequence of
`submit`/`finished` events, the number of jobs registered in the active
mapping never exceeds `N`; and `set_concurrency n` sets the limit to
`max(1, n)` for every integer `n`. -/
theorem claim_concurrency_bound :
    (∀ (N : ℤ) (evs : List MEvent), 1 ≤ N → (∀ e ∈ evs, e.isQueueFlow) →
        (((runEvents (initManager N) evs).active).length : ℤ) ≤ N)
    ∧ ∀ (n : ℤ) (s : ManagerState), (set_concurrency n s).maxWorkers = max 1 n := by
  constructor
  · intro N evs hN hall
    have h1 : (initManager N).maxWorkers = N := by
      simp [initManager, max_eq_right hN]
    have h2 : (((initManager N).active).length : ℤ) ≤ N := by
      simp [initManager]; omega
    exact (runEvents_conc_inv N evs (initManager N) hall h1 h2).2
  · intro n s
    simpa [set_concurrency] using
      maybeDispatch_maxWorkers { s with maxWorkers := max 1 n }

/-- Witness for C1 at `N = 2` and the events
submit 1, submit 2, submit 3, finished 2. -/
theorem claim_concurrency_bound_witness :
    (1 : ℤ) ≤ 2 ∧
    (((runEvents (initManager 2)
        [.submit 1, .submit 2, .submit 3, .finished 2]).active).length : ℤ) ≤ 2 :=
  ⟨by decide,
   claim_concurrency_bound.1 2 [.submit 1, .submit 2, .submit 3, .finished 2]
     (by decide) (by intro e he; fin_cases he <;> trivial)⟩

/-- C2: dispatch is strict FIFO.  Whenever the queue is not paused,
`_maybe_dispatch` removes exactly a front segment of the pending queue and
starts those jobs in submission order — at least one of them when capacity is
free and work is pending, so the job started first is the earliest-submitted
one; in particular, with concurrency 1, jobs submitted 1, 2, 3 are started in
exactly that order. -/
theorem claim_dispatch_fifo :
    (∀ s : ManagerState, s.paused = false →
        ∃ k, maybeDispatch s =
            { s with active := s.active ++ s.pending.take k,
                     pending := s.pending.drop k,
                     started := s.started ++ s.pending.take k } ∧
          (s.pending ≠ [] → (s.active.length : ℤ) < s.maxWorkers → 1 ≤ k))
    ∧ (runEvents (initManager 1)
        [.submit 1, .submit 2, .submit 3,
         .finished 1, .finished 2, .finished 3]).started = [1, 2, 3] := by
  constructor
  · intro s hp
    obtain ⟨k, hk, hk1⟩ := dispatchLoop_take s.maxWorkers s.pending s.active
    exact ⟨k, by simp [maybeDispatch, hp, hk], hk1⟩
  · decide

/-- Witness for C2 on a concrete unpaused state with two pending jobs. -/
theorem claim_dispatch_fifo_witness :
    dfState.paused = false ∧
    ∃ k, maybeDispatch dfState =
        { dfState with active := dfState.active ++ dfState.pending.take k,
                       pending := dfState.pending.drop k,
                       started := dfState.started ++ dfState.pending.take k } ∧
      (dfState.pending ≠ [] → (dfState.active.length : ℤ) < dfState.maxWorkers → 1 ≤ k) :=
  ⟨rfl, claim_dispatch_fifo.1 dfState rfl⟩

/-! ## Queue-finished emission (C7) -/

/-- From a drained state, any valid non-`submit` event leaves the state
drained and emits no `queue_finished`. -/
theorem step_drained (s : ManagerState) (e : MEvent)
    (ha : s.active = []) (hp : s.pending = [])
    (hv : validEvent s e) (hns : ∀ j, e ≠ .submit j) :
    (step s e).active = [] ∧ (step s e).pending = [] ∧
    (step s e).queueFinishedCount = s.queueFinishedCount := by
  cases e with
  | submit j => exact absurd rfl (hns j)
  | finished j =>
      rw [validEvent, ha] at hv
      exact absurd hv (List.not_mem_nil j)
  | setConc n =>
      simp only [step, set_concurrency]
      rw [maybeDispatch_pending_nil _ (by simp [hp])]
      simp [ha, hp]
  | pauseQ => simp [step, pause_queue, ha, hp]
  | resumeQ =>
      simp only [step, resume_queue]
      rw [maybeDispatch_pending_nil _ (by simp [hp])]
      simp [ha, hp]

/-- `step_drained`, folded over a trace without submissions. -/
theorem runEvents_drained :
    ∀ (evs : List MEvent) (s : ManagerState), s.active = [] → s.pending = [] →
      validTrace s evs → (∀ j, MEvent.submit j ∉ evs) →
      (runEvents s evs).queueFinishedCount = s.queueFinishedCount := by
  intro evs
  induction evs with
  | nil => intro s _ _ _ _; rfl
  | cons e evs ih =>
      intro s ha hp hv hns
      have hne : ∀ j, e ≠ .submit j := by
        intro j hj
        exact hns j (by rw [← hj]; exact List.mem_cons_self e evs)
      have hd := step_drained s e ha hp hv.1 hne
      have := ih (step s e) hd.1 hd.2.1 hv.2
        (fun j hj => hns j (List.mem_cons_of_mem e hj))
      simpa [runEvents, List.foldl_cons, hd.2.2] using this

/-- C7: after a worker's `finished` event is handled, `queue_finished` is
emitted iff the active mapping and the pending queue are then both empty; and
once emitted it is not emitted again before new work is submitted (at most
once per drain). -/
theorem claim_queue_finished_drain :
    (∀ (s : ManagerState) (j : ℕ),
        (onFinished j s).queueFinishedCount = s.queueFinishedCount + 1 ↔
          ((onFinished j s).active = [] ∧ (onFinished j s).pending = []))
    ∧ (∀ (s : ManagerState) (evs : List MEvent), s.active = [] → s.pending = [] →
        validTrace s evs → (∀ j, MEvent.submit j ∉ evs) →
        (runEvents s evs).queueFinishedCount = s.queueFinishedCount) := by
  constructor
  · intro s j
    have hc : (maybeDispatch { s with active := s.active.erase j }).queueFinishedCount =
        s.queueFinishedCount := maybeDispatch_count _
    simp only [onFinished]
    set T := maybeDispatch { s with active := s.active.erase j } with hT
    by_cases hcond : (T.active.isEmpty && T.pending.isEmpty) = true
    · rw [if_pos hcond]
      rw [Bool.and_eq_true, List.isEmpty_iff, List.isEmpty_iff] at hcond
      simp [hc, hcond.1, hcond.2]
    · rw [if_neg hcond]
      rw [hc]
      constructor
      · intro h; exact absurd h (by omega)
      · rintro ⟨h1, h2⟩
        exact absurd (by simp [h1, h2] :
          (T.active.isEmpty && T.pending.isEmpty) = true) hcond
  · exact fun s evs => runEvents_drained evs s

/-- Witness for C7's at-most-once part: a drained manager stays silent over
a concurrency change, a pause and a resume. -/
theorem claim_queue_finished_drain_witness :
    (initManager 1).active = [] ∧ (initManager 1).pending = [] ∧
    validTrace (initManager 1) [.setConc 3, .pauseQ, .resumeQ] ∧
    (∀ j, MEvent.submit j ∉ ([.setConc 3, .pauseQ, .resumeQ] : List MEvent)) ∧
    (runEvents (initManager 1) [.setConc 3, .pauseQ, .resumeQ]).queueFinishedCount =
      (initManager 1).queueFinishedCount := by
  refine ⟨rfl, rfl, by simp [validTrace, validEvent], by intro j; simp, ?_⟩
  exact claim_queue_finished_drain.2 (initManager 1) [.setConc 3, .pauseQ, .resumeQ]
    rfl rfl (by simp [validTrace, validEvent]) (by intro j; simp)

/-! ## Finish classification (C3, C5, C8) -/

/-- Counterexample to C3 as stated: for a job canceled while running whose
process exits with code 0, the worker's finished payload is
`(False, "Canceled")`, and the status text the manager republishes to its
observers is `"Failed: Canceled"` — a Failed report, not `"Canceled"`. -/
theorem claim_cancel_status_counterexample :
    finishReport true (some 0) = (false, "Canceled") ∧
    managerTerminalStatus (finishReport true (some 0)).1
      (finishReport true (some 0)).2 = "Failed: Canceled" ∧
    managerTerminalStatus (finishReport true (some 0)).1
      (finishReport true (some 0)).2 ≠ "Canceled" := by
  refine ⟨rfl, rfl, ?_⟩
  decide

/-- C3 as amended: for every job on which cancel was requested while
running, the worker's own finished event carries the message `"Canceled"`
and success `False`, regardless of the process exit code (including 0); the
manager, however, republishes every unsuccessful finish as
`"Failed: {message}"`, so observers of the manager see the terminal status
text `"Failed: Canceled"`. -/
theorem claim_cancel_reported :
    ∀ waitOutcome : Option ℤ,
      finishReport true waitOutcome = (false, "Canceled") ∧
      managerTerminalStatus (finishReport true waitOutcome).1
        (finishReport true waitOutcome).2 = "Failed: Canceled" :=
  fun _ => ⟨rfl, rfl⟩

/-- C5: with no cancellation request, exit code 0 yields a successful
finished event with message `"OK"`, and a non-zero exit code yields a failed
finished event whose message embeds that exit code. -/
theorem claim_exit_code_classification :
    finishReport false (some 0) = (true, "OK") ∧
    ∀ code : ℤ, code ≠ 0 →
      finishReport false (some code) =
        (false, "ffmpeg exited with code " ++ toString code) := by
  refine ⟨rfl, ?_⟩
  intro c hc
  simp [finishReport, finishRet, hc]

/-- Witness for C5 at exit code 7. -/
theorem claim_exit_code_classification_witness :
    (7 : ℤ) ≠ 0 ∧
    finishReport false (some 7) = (false, "ffmpeg exited with code " ++ toString (7 : ℤ)) :=
  ⟨by decide, claim_exit_code_classification.2 7 (by decide)⟩

/-- Counterexample to C8 as stated: when the bounded wait expires without an
exit code (`wait` raised), the finished message is the ordinary exit-code
message `"ffmpeg exited with code -1"` — identical to the report for a
process that really exited with code `-1` — not a distinct "did not exit"
message. -/
theorem claim_exit_wait_timeout_counterexample :
    finishReport false none = (false, "ffmpeg exited with code -1") ∧
    finishReport false none = finishReport false (some (-1)) := by
  constructor
  · decide
  · rfl

/-- C8 as amended: when the process does not exit within the bounded wait,
`ret` is forced to `-1` and the finished event reports failure with the
ordinary exit-code message for `-1`, indistinguishable from a genuine exit
with code `-1`. -/
theorem claim_exit_wait_timeout_report :
    finishReport false none =
      (false, "ffmpeg exited with code " ++ toString (finishRet none)) := rfl

/-! ## Supervisor writes to the Job record (C9) -/

/-- Counterexample to C9 as stated: the worker's own startup code
(`job.mark_running()` in `ProcessorWorker.run`) mutates the job's `status`
field (to Running) and its `start_time` field — fields C9 reserves to the
Scheduler. -/
theorem claim_supervisor_writes_counterexample :
    (workerStart 100 4242 sampleJob).status ≠ sampleJob.status ∧
    (workerStart 100 4242 sampleJob).start_time ≠ sampleJob.start_time := by
  constructor <;> decide

/-- C9 as amended: the worker writes exactly the fields `status` (to
Running), `start_time`, `progress` (reset to 0), `eta_seconds` (cleared) and
`ffmpeg_pid`; every other field of the job is untouched, and the worker
performs no further `Job` writes after startup (progress/eta/log updates are
emitted as signals only, never written back to the record). -/
theorem claim_supervisor_writes :
    ∀ (now : ℚ) (pid : ℤ) (j : Job),
      (workerStart now pid j).status = .RUNNING ∧
      (workerStart now pid j).start_time = some now ∧
      (workerStart now pid j).progress = 0 ∧
      (workerStart now pid j).eta_seconds = none ∧
      (workerStart now pid j).ffmpeg_pid = some pid ∧
      (workerStart now pid j).id = j.id ∧
      (workerStart now pid j).input_path = j.input_path ∧
      (workerStart now pid j).output_path = j.output_path ∧
      (workerStart now pid j).duration = j.duration ∧
      (workerStart now pid j).has_video = j.has_video ∧
      (workerStart now pid j).has_audio = j.has_audio ∧
      (workerStart now pid j).message = j.message ∧
      (workerStart now pid j).end_time = j.end_time ∧
      (workerStart now pid j).preview_mode = j.preview_mode ∧
      (workerStart now pid j).command = j.command :=
  fun _ _ _ =>
    ⟨rfl, rfl, rfl, rfl, rfl, rfl, rfl, rfl, rfl, rfl, rfl, rfl, rfl, rfl, rfl⟩

/-! ## Occurrence lemmas: stripping a line cannot create a `time=` token -/

/-- A prefix of `l` is still a prefix of `l ++ l'`. -/
theorem startsWithSeq_append (sep : PyStr) :
    ∀ l l' : PyStr, startsWithSeq sep l = true → startsWithSeq sep (l ++ l') = true := by
  induction sep with
  | nil => intro l l' _; rfl
  | cons a as ih =>
      intro l l' h
      cases l with
      | nil => simp [startsWithSeq] at h
      | cons b bs =>
          simp only [startsWithSeq, Bool.and_eq_true, beq_iff_eq] at h
          simp only [List.cons_append, startsWithSeq, Bool.and_eq_true, beq_iff_eq]
          exact ⟨h.1, ih bs l' h.2⟩

/-- An occurrence in `l` is an occurrence in `l ++ t`. -/
theorem hasOcc_append_right (sep : PyStr) :
    ∀ l t : PyStr, hasOcc sep l = true → hasOcc sep (l ++ t) = true := by
  intro l
  induction l with
  | nil => intro t h; simp [hasOcc] at h
  | cons c cs ih =>
      intro t h
      simp only [hasOcc, Bool.or_eq_true] at h
      simp only [List.cons_append, hasOcc, Bool.or_eq_true]
      rcases h with h | h
      · exact Or.inl (by simpa using startsWithSeq_append sep (c :: cs) t h)
      · exact Or.inr (ih t h)

/-- An occurrence in `l` is an occurrence in `t ++ l`. -/
theorem hasOcc_append_left (sep : PyStr) :
    ∀ t l : PyStr, hasOcc sep l = true → hasOcc sep (t ++ l) = true := by
  intro t
  induction t with
  | nil => intro l h; simpa using h
  | cons c ts ih =>
      intro l h
      simp only [List.cons_append, hasOcc, Bool.or_eq_true]
      exact Or.inr (ih l h)

/-- `rstripWs l` is a front segment of `l`. -/
theorem rstripWs_eq_append : ∀ l : PyStr, ∃ t, l = rstripWs l ++ t := by
  intro l
  induction l with
  | nil => exact ⟨[], rfl⟩
  | cons c cs ih =>
      obtain ⟨t, ht⟩ := ih
      cases h : rstripWs cs with
      | nil =>
          by_cases hw : c.isWhitespace
          · exact ⟨c :: cs, by simp [rstripWs, h, hw]⟩
          · refine ⟨cs, ?_⟩
            simp [rstripWs, h, hw]
      | cons r rs =>
          refine ⟨t, ?_⟩
          simp only [rstripWs, h]
          rw [← h, List.cons_append, ← ht]

/-- If `"time="`-style occurrence holds in the stripped line, it held in the
raw line: `strip` only removes characters at the ends. -/
theorem hasOcc_pyStrip (sep l : PyStr) (h : hasOcc sep (pyStrip l) = true) :
    hasOcc sep l = true := by
  obtain ⟨t, ht⟩ := rstripWs_eq_append (l.dropWhile Char.isWhitespace)
  have h2 : hasOcc sep (l.dropWhile Char.isWhitespace) = true := by
    rw [ht]
    exact hasOcc_append_right sep _ t h
  have h3 : l.takeWhile Char.isWhitespace ++ l.dropWhile Char.isWhitespace = l :=
    List.takeWhile_append_dropWhile Char.isWhitespace l
  rw [← h3]
  exact hasOcc_append_left sep _ _ h2

/-- `afterLast` succeeds exactly when the separator occurs. -/
theorem afterLast_isSome (sep : PyStr) :
    ∀ l : PyStr, (afterLast sep l).isSome = hasOcc sep l := by
  intro l
  induction l with
  | nil => rfl
  | cons c cs ih =>
      cases h : afterLast sep cs with
      | some r =>
          have hcs : hasOcc sep cs = true := by rw [← ih, h]; rfl
          simp [afterLast, hasOcc, h, hcs]
      | none =>
          have hcs : hasOcc sep cs = false := by rw [← ih, h]; rfl
          cases hS : startsWithSeq sep (c :: cs) <;>
            simp [afterLast, hasOcc, h, hcs, hS]

/-! ## Evaluation lemmas for the per-line progress step -/

/-- When the stripped line yields a token that parses to `t`, the worker
emits exactly the sample of workers.py lines 112-118. -/
theorem processLine_eq_of_parse (duration wall : ℚ) (line tok : PyStr) (t : ℚ)
    (h1 : timeToken (pyStrip line) = some tok)
    (h2 : parse_ffmpeg_time_to_seconds tok = some t) :
    processLine duration wall line =
      some ⟨t, min (max (t / duration) 0) 1,
            (duration - t) / max (t / max wall (1/1000)) (1/100)⟩ := by
  have hne : (pyStrip line).isEmpty = false := by
    cases hp : pyStrip line with
    | nil => rw [hp] at h1; simp [timeToken, afterLast] at h1
    | cons a b => rfl
  have hpos : (0 : ℚ) < max wall (1/1000) := lt_max_of_lt_right (by norm_num)
  simp only [processLine, hne, Bool.false_eq_true, if_false, h1, h2, hpos, if_true]

/-- A line in which `"time="` does not occur yields no sample. -/
theorem processLine_none_of_no_time (duration wall : ℚ) (line : PyStr)
    (h : hasOcc timeSep line = false) : processLine duration wall line = none := by
  have h2 : afterLast timeSep (pyStrip line) = none := by
    cases ha : afterLast timeSep (pyStrip line) with
    | none => rfl
    | some r =>
        have hs : hasOcc timeSep (pyStrip line) = true := by
          rw [← afterLast_isSome, ha]; rfl
        have := hasOcc_pyStrip timeSep line hs
        simp [h] at this
  simp [processLine, timeToken, h2]

/-- A line whose extracted token does not parse yields no sample: the
worker's `except` swallows the failure and the loop continues. -/
theorem processLine_none_of_parse_fail (duration wall : ℚ) (line : PyStr)
    (h : ∀ tok, timeToken (pyStrip line) = some tok →
        parse_ffmpeg_time_to_seconds tok = none) :
    processLine duration wall line = none := by
  by_cases hE : (pyStrip line).isEmpty
  · simp [processLine, hE]
  · cases htk : timeToken (pyStrip line) with
    | none => simp [processLine, hE, htk]
    | some tok => simp [processLine, hE, htk, h tok htk]

/-- Every emitted sample's fraction is the clamp of its timestamp over the
duration. -/
theorem processLine_some_spec (duration wall : ℚ) (line : PyStr) (s : Sample)
    (h : processLine duration wall line = some s) :
    s.prog = min (max (s.t / duration) 0) 1 := by
  by_cases hE : (pyStrip line).isEmpty
  · simp [processLine, hE] at h
  · cases htk : timeToken (pyStrip line) with
    | none => simp [processLine, hE, htk] at h
    | some tok =>
        cases hp : parse_ffmpeg_time_to_seconds tok with
        | none => simp [processLine, hE, htk, hp] at h
        | some t =>
            simp only [processLine, hE, Bool.false_eq_true, if_false, htk, hp,
              Option.some.injEq] at h
            rw [← h]

/-! ## Progress sample formulas (C4) -/

/-- C4: a line with a parseable `time=` token and elapsed output-time `t`
yields a sample with fraction `clamp(t / D, 0, 1)` and remaining time
`(D - t) / max(t / wall_clock_elapsed, 0.01)`, where an expected output
duration `D ≤ 0` is floored to `0.01` (the worker applies `max(D, 0.01)`
once up front) and the wall-clock elapsed time is floored at `0.001`
seconds; a line with no `time=` token yields no sample. -/
theorem claim_progress_sample :
    (∀ (line : PyStr) (D wallElapsed : ℚ) (tok : PyStr) (t : ℚ),
        timeToken (pyStrip line) = some tok →
        parse_ffmpeg_time_to_seconds tok = some t →
        processLine (max D (1/100)) wallElapsed line =
          some ⟨t, min (max (t / max D (1/100)) 0) 1,
                (max D (1/100) - t) / max (t / max wallElapsed (1/1000)) (1/100)⟩)
    ∧ (∀ (line : PyStr) (D wallElapsed : ℚ) (tok : PyStr) (t : ℚ),
        (1/1000 : ℚ) ≤ wallElapsed →
        timeToken (pyStrip line) = some tok →
        parse_ffmpeg_time_to_seconds tok = some t →
        processLine (max D (1/100)) wallElapsed line =
          some ⟨t, min (max (t / max D (1/100)) 0) 1,
                (max D (1/100) - t) / max (t / wallElapsed) (1/100)⟩)
    ∧ ∀ (line : PyStr) (duration wallElapsed : ℚ),
        hasOcc timeSep line = false → processLine duration wallElapsed line = none := by
  refine ⟨?_, ?_, ?_⟩
  · intro line D wall tok t h1 h2
    exact processLine_eq_of_parse (max D (1/100)) wall line tok t h1 h2
  · intro line D wall tok t hw h1 h2
    have := processLine_eq_of_parse (max D (1/100)) wall line tok t h1 h2
    rwa [max_eq_left hw] at this
  · intro line dur wall h
    exact processLine_none_of_no_time dur wall line h

/-- Witness for C4: spec §8's scenario line with expected output duration
20 s and 1 s of wall-clock, whose fraction works out to `1/4`. -/
theorem claim_progress_sample_witness :
    timeToken (pyStrip specLine) = some ("00:00:05.00".data) ∧
    parse_ffmpeg_time_to_seconds ("00:00:05.00".data) = some 5 ∧
    ((1/1000 : ℚ) ≤ 1) ∧
    processLine (max 20 (1/100)) 1 specLine =
      some ⟨5, min (max (5 / max 20 (1/100)) 0) 1,
            (max 20 (1/100) - 5) / max (5 / (1 : ℚ)) (1/100)⟩ := by
  have h1 : timeToken (pyStrip specLine) = some ("00:00:05.00".data) := by decide
  have h2 : parse_ffmpeg_time_to_seconds ("00:00:05.00".data) = some 5 := by
    simp +decide [parse_ffmpeg_time_to_seconds, splitChar, splitCharAux, pyInt, pyFloat,
      pyFloatCore, pyStrip, rstripWs, isDigits, digitsToNat]
  exact ⟨h1, h2, by norm_num,
    claim_progress_sample.2.1 specLine 20 1 _ 5 (by norm_num) h1 h2⟩

/-! ## Malformed lines are ignored (C6) -/

/-- C6: malformed timestamp tokens make `parse_ffmpeg_time_to_seconds`
return `none` rather than fail, and whenever the extracted token of a line
does not parse (or no token can be extracted at all) the reading loop
produces no sample and surfaces no error. -/
theorem claim_malformed_ignored :
    parse_ffmpeg_time_to_seconds ("garbage".data) = none ∧
    parse_ffmpeg_time_to_seconds ("12:34".data) = none ∧
    parse_ffmpeg_time_to_seconds ("aa:bb:cc".data) = none ∧
    parse_ffmpeg_time_to_seconds ("00:00:".data) = none ∧
    ∀ (line : PyStr) (duration wallElapsed : ℚ),
      (∀ tok, timeToken (pyStrip line) = some tok →
          parse_ffmpeg_time_to_seconds tok = none) →
      processLine duration wallElapsed line = none := by
  refine ⟨by decide, by decide, by decide, by decide, ?_⟩
  intro line dur wall h
  exact processLine_none_of_parse_fail dur wall line h

/-- Witness for C6: the line `"time=bogus x"` carries an unparsable token
and produces no sample. -/
theorem claim_malformed_ignored_witness :
    (∀ tok, timeToken (pyStrip ("time=bogus x".data)) = some tok →
        parse_ffmpeg_time_to_seconds tok = none) ∧
    processLine 10 1 ("time=bogus x".data) = none := by
  have hall : ∀ tok, timeToken (pyStrip ("time=bogus x".data)) = some tok →
      parse_ffmpeg_time_to_seconds tok = none := by
    intro tok htok
    have h' : timeToken (pyStrip ("time=bogus x".data)) = some ("bogus".data) := by decide
    rw [h'] at htok
    injection htok with hEq
    rw [← hEq]
    decide
  exact ⟨hall, claim_malformed_ignored.2.2.2.2 ("time=bogus x".data) 10 1 hall⟩

/-! ## Progress monotonicity (C10) -/

/-- The worker's effective duration for a 5-second input is 10 seconds. -/
theorem wd5 : workerDuration 5 = 10 := by
  rw [workerDuration]
  norm_num [max_def]

/-- Concrete sample for `lineT5` at 1 s wall-clock. -/
theorem eval_lineT5 : processLine (workerDuration 5) 1 lineT5 = some ⟨5, 1/2, 1⟩ := by
  have h := processLine_eq_of_parse (workerDuration 5) 1 lineT5 ("00:00:05.00".data) 5
    (by decide)
    (by simp +decide [parse_ffmpeg_time_to_seconds, splitChar, splitCharAux, pyInt, pyFloat,
      pyFloatCore, pyStrip, rstripWs, isDigits, digitsToNat])
  rw [h, wd5]
  norm_num [max_def, min_def]

/-- Concrete sample for `lineT3` at 2 s wall-clock. -/
theorem eval_lineT3 : processLine (workerDuration 5) 2 lineT3 = some ⟨3, 3/10, 14/3⟩ := by
  have h := processLine_eq_of_parse (workerDuration 5) 2 lineT3 ("00:00:03.00".data) 3
    (by decide)
    (by simp +decide [parse_ffmpeg_time_to_seconds, splitChar, splitCharAux, pyInt, pyFloat,
      pyFloatCore, pyStrip, rstripWs, isDigits, digitsToNat])
  rw [h, wd5]
  norm_num [max_def, min_def]

/-- Counterexample to C10 as stated: nothing in the worker enforces
monotone progress — a stderr stream whose `time=` values regress (5 s then
3 s) makes the reported fractions decrease from `1/2` to `3/10`. -/
theorem claim_progress_monotone_counterexample :
    progressEmissions (workerDuration 5) decreasingLines = [1/2, 3/10] ∧
    ¬ ((1 : ℚ)/2 ≤ 3/10) := by
  constructor
  · simp [progressEmissions, decreasingLines, eval_lineT5, eval_lineT3]
  · norm_num

/-- C10 as amended: the reported fraction is a monotone function of the
parsed output timestamp (so progress is non-decreasing whenever the
timestamps are), and `Job.mark_completed` sets progress to exactly `1.0` at
the Completed transition. -/
theorem claim_progress_monotone :
    (∀ (d wall1 wall2 : ℚ) (l1 l2 : PyStr) (s1 s2 : Sample),
        processLine (workerDuration d) wall1 l1 = some s1 →
        processLine (workerDuration d) wall2 l2 = some s2 →
        s1.t ≤ s2.t → s1.prog ≤ s2.prog)
    ∧ ∀ (now : ℚ) (j : Job), (Job.mark_completed now j).progress = 1 := by
  constructor
  · intro d wall1 wall2 l1 l2 s1 s2 h1 h2 ht
    rw [processLine_some_spec _ _ _ _ h1, processLine_some_spec _ _ _ _ h2]
    have hdur : (0 : ℚ) < workerDuration d :=
      lt_of_lt_of_le (by norm_num) (le_max_right _ _)
    exact min_le_min (max_le_max ((div_le_div_iff_of_pos_right hdur).mpr ht) le_rfl) le_rfl
  · intro now j; rfl

/-- Witness for C10's monotonicity on two concrete lines with increasing
timestamps. -/
theorem claim_progress_monotone_witness :
    processLine (workerDuration 5) 2 lineT3 = some ⟨3, 3/10, 14/3⟩ ∧
    processLine (workerDuration 5) 1 lineT5 = some ⟨5, 1/2, 1⟩ ∧
    ((⟨3, 3/10, 14/3⟩ : Sample).t ≤ (⟨5, 1/2, 1⟩ : Sample).t) ∧
    ((⟨3, 3/10, 14/3⟩ : Sample).prog ≤ (⟨5, 1/2, 1⟩ : Sample).prog) :=
  ⟨eval_lineT3, eval_lineT5, by norm_num,
   claim_progress_monotone.1 5 2 1 lineT3 lineT5 _ _ eval_lineT3 eval_lineT5 (by norm_num)⟩

end AVS
